import Mathlib

/-!
Verification development for the todo-daemon repository.

The definitions below are a shallow embedding of the Go source:

* `TodoDaemon.Task`, `TodoDaemon.TaskCreate`, `TodoDaemon.TaskUpdate`,
  `TodoDaemon.FieldMask` embed the data model of internal/todo (task.go
  variant with plain string/time fields, `FieldMask []string`).
* The Go `map[string]Task` is embedded as an association list with
  map semantics (`mapLookup`, `mapInsert`, `mapErase`); `mapInsert`
  overwrites the entry for an existing key and `mapErase` removes the
  key, exactly like Go map assignment and the `delete` builtin.
* Go `time.Time` is embedded as `Nat`; the zero value 0 plays the role
  of Go's zero time (an unset timestamp).  `time.Now()` values enter as
  explicit `now` arguments.
* Go `strconv.Itoa` (for non-negative arguments) is embedded as `Itoa`,
  a fuel-based decimal rendering mirroring the strconv digit loop.
* Errors: `RepoError.taskNotFound` embeds `*TaskNotFoundError`,
  `RepoError.plain` embeds `errors.New` values;
  `IsTaskNotFoundError` embeds the `errors.As`-based check.
-/

namespace TodoDaemon

/-- Decimal digit character, as in the strconv digit loop (only digits
below 10 are ever produced). -/
def digitChar (n : Nat) : Char :=
  if n = 0 then '0' else
  if n = 1 then '1' else
  if n = 2 then '2' else
  if n = 3 then '3' else
  if n = 4 then '4' else
  if n = 5 then '5' else
  if n = 6 then '6' else
  if n = 7 then '7' else
  if n = 8 then '8' else
  if n = 9 then '9' else
  '*'

/-- Fuel-based core of the decimal rendering: peel off the last digit,
recurse on the quotient. -/
def toDigitsCore : Nat → Nat → List Char → List Char
  | 0, _, ds => ds
  | fuel + 1, n, ds =>
    let d := digitChar (n % 10)
    if n / 10 = 0 then d :: ds else toDigitsCore fuel (n / 10) (d :: ds)

/-- Embedding of Go's `strconv.Itoa` on non-negative integers: the
decimal representation of `n` as a string. -/
def Itoa (n : Nat) : String :=
  (toDigitsCore (n + 1) n []).asString

/-- A single to-do item (struct `Task` in internal/todo). Timestamps are
`Nat`; 0 is the zero time. -/
structure Task where
  id : String
  summary : String
  createdAt : Nat
  updatedAt : Nat
  completedAt : Nat
  deletedAt : Nat
deriving DecidableEq

/-- Data needed to create a task (struct `TaskCreate`). -/
structure TaskCreate where
  summary : String
deriving DecidableEq

/-- A modification of a task (struct `TaskUpdate`, the variant with
plain `string`/`time.Time` fields used by the field-mask repository). -/
structure TaskUpdate where
  summary : String
  completedAt : Nat
deriving DecidableEq

/-- Embedding of `type FieldMask []string`. -/
abbrev FieldMask := List String

/-- Membership test on a field mask, embedding `slices.Contains`. -/
def FieldMask.has (fields : FieldMask) (name : String) : Bool :=
  fields.contains name

/-- Errors returned by the task repository: `taskNotFound` embeds
`*TaskNotFoundError`, `plain` embeds generic `errors.New` errors. -/
inductive RepoError where
  | taskNotFound (id : String)
  | plain (msg : String)
deriving DecidableEq

instance {ε α : Type} [DecidableEq ε] [DecidableEq α] : DecidableEq (Except ε α) := fun x y =>
  match x, y with
  | .ok a, .ok b =>
    if h : a = b then .isTrue (by rw [h]) else .isFalse (by simp [h])
  | .error a, .error b =>
    if h : a = b then .isTrue (by rw [h]) else .isFalse (by simp [h])
  | .ok _, .error _ => .isFalse (by simp)
  | .error _, .ok _ => .isFalse (by simp)

/-- Embedding of `IsTaskNotFoundError` (the `errors.As` check). -/
def IsTaskNotFoundError : RepoError → Bool
  | .taskNotFound _ => true
  | .plain _ => false

/-- Lookup in the association list embedding of `map[string]Task`. -/
def mapLookup (id : String) : List (String × Task) → Option Task
  | [] => none
  | e :: es => if e.1 = id then some e.2 else mapLookup id es

/-- Insertion with map semantics: replace the entry for an existing key,
otherwise append.  Embeds Go map assignment `m[k] = v`. -/
def mapInsert (id : String) (t : Task) : List (String × Task) → List (String × Task)
  | [] => [(id, t)]
  | e :: es => if e.1 = id then (id, t) :: es else e :: mapInsert id t es

/-- Removal with map semantics: the key is absent afterwards.  Embeds
the Go `delete` builtin. -/
def mapErase (id : String) : List (String × Task) → List (String × Task)
  | [] => []
  | e :: es => if e.1 = id then mapErase id es else e :: mapErase id es

/-- The in-memory task repository: just the task map
(struct `InMemoryTaskDB`, minus the mutex, which serializes the
operations modelled here as atomic steps). -/
structure InMemoryTaskDB where
  tasks : List (String × Task)
deriving DecidableEq

/-- Embedding of `NewInMemoryTaskDB`: an empty task map. -/
def NewInMemoryTaskDB : InMemoryTaskDB := ⟨[]⟩

/-- Embedding of `InMemoryTaskDB.All`: collect the map values and sort
them by creation time in ascending order (`slices.SortFunc` with a
`CreatedAt` comparison).  Never returns an error. -/
def InMemoryTaskDB.All (db : InMemoryTaskDB) : Except RepoError (List Task) :=
  .ok ((db.tasks.map Prod.snd).mergeSort (fun a b => decide (a.createdAt ≤ b.createdAt)))

/-- Embedding of `InMemoryTaskDB.Create`.  A `none` argument embeds a
nil `*TaskCreate`.  The new id is `strconv.Itoa(len(db.tasks) + 1)`;
the result is the new state of the store paired with the returned
value. -/
def InMemoryTaskDB.Create (db : InMemoryTaskDB) (task : Option TaskCreate)
    (now : Nat) : InMemoryTaskDB × Except RepoError Task :=
  match task with
  | none => (db, .error (.plain "task cannot be nil"))
  | some tc =>
    let t : Task :=
      { id := Itoa (db.tasks.length + 1), summary := tc.summary,
        createdAt := now, updatedAt := 0, completedAt := 0, deletedAt := 0 }
    (⟨mapInsert t.id t db.tasks⟩, .ok t)

/-- Embedding of `InMemoryTaskDB.Update`.  A `none` update embeds a nil
`*TaskUpdate`.  Only the fields named in the mask are applied; each
applied field also refreshes `updatedAt`.  The mutated task is written
back under its own id, as in `db.tasks[t.ID] = t`. -/
def InMemoryTaskDB.Update (db : InMemoryTaskDB) (id : String)
    (update : Option TaskUpdate) (fields : FieldMask) (now : Nat) :
    InMemoryTaskDB × Except RepoError Task :=
  match update with
  | none => (db, .error (.plain "update cannot be nil"))
  | some u =>
    match mapLookup id db.tasks with
    | none => (db, .error (.taskNotFound id))
    | some t0 =>
      let t1 := if fields.has "summary" then
        { t0 with summary := u.summary, updatedAt := now } else t0
      let t2 := if fields.has "completed_at" then
        { t1 with completedAt := u.completedAt, updatedAt := now } else t1
      (⟨mapInsert t2.id t2 db.tasks⟩, .ok t2)

/-- Embedding of `InMemoryTaskDB.Delete`: fail with `TaskNotFoundError`
if the id is absent, otherwise remove the entry. -/
def InMemoryTaskDB.Delete (db : InMemoryTaskDB) (id : String) :
    InMemoryTaskDB × Except RepoError Unit :=
  match mapLookup id db.tasks with
  | none => (db, .error (.taskNotFound id))
  | some _ => (⟨mapErase id db.tasks⟩, .ok ())

/-- A single repository operation, used to describe sequences of calls
against one store instance.  Each operation carries the `time.Now()`
value observed during its critical section. -/
inductive Op where
  | create (task : Option TaskCreate)
  | update (id : String) (u : Option TaskUpdate) (fields : FieldMask)
  | delete (id : String)
deriving DecidableEq

/-- Run a sequence of timed operations against a store.  The result is
the final store paired with the list of ids returned by the successful
`Create` calls, in order. -/
def runOps : InMemoryTaskDB → List (Op × Nat) → InMemoryTaskDB × List String
  | db, [] => (db, [])
  | db, (.create task, now) :: rest =>
    let r := db.Create task now
    let rr := runOps r.1 rest
    match r.2 with
    | .ok t => (rr.1, t.id :: rr.2)
    | .error _ => rr
  | db, (.update id u fields, now) :: rest =>
    runOps (db.Update id u fields now).1 rest
  | db, (.delete id, _) :: rest =>
    runOps (db.Delete id).1 rest

/-- The trace consists of `Create` calls with non-nil input only (no
deletions or updates). -/
def createsOnly : List (Op × Nat) → Bool
  | [] => true
  | (.create (some _), _) :: rest => createsOnly rest
  | _ => false

/-- The trace's timestamps are non-decreasing and bounded below by `b`:
the monotonicity that `time.Now()` guarantees within one process. -/
def timesMono : Nat → List (Op × Nat) → Prop
  | _, [] => True
  | b, (_, t) :: rest => b ≤ t ∧ timesMono t rest

instance : ∀ b trace, Decidable (timesMono b trace)
  | _, [] => .isTrue trivial
  | b, (_, t) :: rest =>
    have : Decidable (timesMono t rest) := instDecidableTimesMono t rest
    inferInstanceAs (Decidable (b ≤ t ∧ timesMono t rest))

/-!
HTTP update handler (internal/todo/controller.go, `doUpdateTask`):
decode the PATCH body, call the repository `Update`, and translate the
outcome into an HTTP status code.  A JSON decode failure becomes a 400
`newBadRequestError`; every repository error, including a
`TaskNotFoundError`, becomes a 500 `newInternalServerError`; success
becomes a 200 with the updated task.  A `none` body embeds a request
body that fails to decode.
-/

/-- Result of the PATCH handler: the HTTP status code, the task sent
back (for 200), and the resulting store. -/
def doUpdateTask (db : InMemoryTaskDB) (id : String) (body : Option TaskUpdate)
    (fields : FieldMask) (now : Nat) : Nat × Option Task × InMemoryTaskDB :=
  match body with
  | none => (400, none, db)
  | some u =>
    let r := db.Update id (some u) fields now
    match r.2 with
    | .error _ => (500, none, r.1)
    | .ok t => (200, some t, r.1)

/-!
Dual-protocol server startup (internal/daemon/server.go, `Server.Serve`,
bind phase).  The two `net.Listen` calls are embedded as `Except`
parameters: `.ok l` is a successfully bound listener handle `l`,
`.error e` a bind failure.  The outcome records either the error
returned by `Serve` together with the handles of listeners that were
bound and not closed when `Serve` returned, or the pair of listeners
with which serving proceeds.  In the source, the early `return` after a
failed HTTP bind closes neither listener.
-/

inductive ServeOutcome where
  | bindError (err : String) (leftOpen : List Nat)
  | serving (grpcListener httpListener : Nat)
deriving DecidableEq

/-- Embedding of the bind phase of `Server.Serve`: bind the gRPC
listener, then the HTTP listener; on either failure return a wrapped
error without closing anything already bound. -/
def Serve (grpcBind httpBind : Except String Nat) : ServeOutcome :=
  match grpcBind with
  | .error e => .bindError ("cannot start gRPC server: " ++ e) []
  | .ok g =>
    match httpBind with
    | .error e => .bindError ("cannot start HTTP server: " ++ e) [g]
    | .ok h => .serving g h

/-!
Run command (internal/daemon/cli.go, `CLI.runServer`).  Filesystem and
server effects enter as parameters: `none`/`.ok` means the step
succeeded, `some e`/`.error e` that it failed with message `e`.  The
try-lock result `.ok false` means the lock is held by another process.
The outcome records the command's return value; the effects record
whether the server was started, whether the deferred `Unlock` ran, and
the log lines emitted for lock handling.
-/

inductive RunResult where
  | lockDirError (e : String)
  | lockError (e : String)
  | alreadyRunning
  | sockError (e : String)
  | serveDone (serveErr : Option String)
deriving DecidableEq

structure RunEffects where
  serverStarted : Bool
  unlockAttempted : Bool
  logs : List String
deriving DecidableEq

/-- Log lines of the post-acquisition path: the acquisition message,
and, if the deferred release fails, the release-failure message. -/
def lockLogs (unlockFails : Bool) : List String :=
  if unlockFails then ["acquired file lock", "cannot release file lock"]
  else ["acquired file lock"]

/-- Embedding of `CLI.runServer`: create the lock directory, try-lock
the lock file, abort with `ErrAlreadyRunning` if the lock is held
elsewhere, otherwise prepare the socket path, run the server, and
release the lock on the way out (release failures are only logged). -/
def runServer (mkdirLock : Option String) (tryLock : Except String Bool)
    (mkdirSock : Option String) (rmSock : Option String)
    (serveResult : Option String) (unlockFails : Bool) :
    RunResult × RunEffects :=
  match mkdirLock with
  | some e => (.lockDirError ("cannot acquire file lock: " ++ e), ⟨false, false, []⟩)
  | none =>
    match tryLock with
    | .error e => (.lockError ("cannot acquire file lock: " ++ e), ⟨false, false, []⟩)
    | .ok false => (.alreadyRunning, ⟨false, false, []⟩)
    | .ok true =>
      match mkdirSock with
      | some e =>
        (.sockError ("cannot create socket directory: " ++ e),
         ⟨false, true, lockLogs unlockFails⟩)
      | none =>
        match rmSock with
        | some e =>
          (.sockError ("cannot remove socket file: " ++ e),
           ⟨false, true, lockLogs unlockFails⟩)
        | none =>
          (.serveDone serveResult, ⟨true, true, lockLogs unlockFails⟩)

/-!
Status reporting (internal/daemon/controller.go, `controller.GetStatus`,
and internal/todo/controller.go, `GRPCController.Status`).  The status
provider's answer enters as a parameter: `none` embeds a nil provider,
`.error` a provider failure.  The process id is an `Int` (Go `int`);
the response carries it as an unsigned 32-bit value.
-/

/-- Go's `math.MaxUint32`. -/
def MaxUint32 : Int := 4294967295

/-- Embedding of Go's `uint32(i)` conversion on `int`. -/
def toUint32 (i : Int) : Nat := (i % 4294967296).toNat

/-- The gRPC status payload: process id (as uint32) and API base URL. -/
structure StatusResponse where
  pid : Nat
  apiBaseURL : String
deriving DecidableEq

/-- Embedding of `controller.GetStatus`: reject a nil provider or a
provider error, reject a pid outside the unsigned 32-bit range, and
otherwise answer with the pid and the API base URL. -/
def GetStatus (providerResult : Option (Except String (Int × String))) :
    Except String StatusResponse :=
  match providerResult with
  | none => .error "cannot determine server status"
  | some (.error e) => .error e
  | some (.ok (pid, url)) =>
    if pid < 0 ∨ pid > MaxUint32 then .error "unexpected PID"
    else .ok ⟨toUint32 pid, url⟩

/-- Embedding of `GRPCController.Status`: the same checks, answering
with a gRPC internal error when the provider is missing or fails, or
when the pid is out of the unsigned 32-bit range. -/
def GRPCStatus (providerResult : Option (Except String (Int × String))) :
    Except String StatusResponse :=
  match providerResult with
  | none => .error "no server status provided"
  | some (.error e) => .error ("cannot determine server status: " ++ e)
  | some (.ok (pid, url)) =>
    if pid < 0 ∨ pid > MaxUint32 then .error "invalid server PID"
    else .ok ⟨toUint32 pid, url⟩

/-! Lemmas about the association-list embedding of the task map. -/

theorem mapLookup_mapInsert_self (id : String) (t : Task) (l : List (String × Task)) :
    mapLookup id (mapInsert id t l) = some t := by
  induction l with
  | nil => simp [mapInsert, mapLookup]
  | cons e es ih =>
    by_cases h : e.1 = id
    · simp [mapInsert, mapLookup, h]
    · simp [mapInsert, mapLookup, h, ih]

theorem mapLookup_mapInsert_ne {id2 id : String} (t : Task) (l : List (String × Task))
    (h : id2 ≠ id) : mapLookup id2 (mapInsert id t l) = mapLookup id2 l := by
  have h2 : id ≠ id2 := Ne.symm h
  induction l with
  | nil => simp [mapInsert, mapLookup, h2]
  | cons e es ih =>
    by_cases he : e.1 = id
    · have he2 : e.1 ≠ id2 := by rw [he]; exact h2
      simp [mapInsert, mapLookup, he, h2, he2]
    · simp [mapInsert, mapLookup, he, ih]

theorem mapLookup_mapErase_self (id : String) (l : List (String × Task)) :
    mapLookup id (mapErase id l) = none := by
  induction l with
  | nil => simp [mapErase, mapLookup]
  | cons e es ih =>
    by_cases h : e.1 = id
    · simp [mapErase, h, ih]
    · simp [mapErase, mapLookup, h, ih]

theorem mapLookup_mapErase_ne {id2 id : String} (l : List (String × Task))
    (h : id2 ≠ id) : mapLookup id2 (mapErase id l) = mapLookup id2 l := by
  induction l with
  | nil => simp [mapErase]
  | cons e es ih =>
    by_cases he : e.1 = id
    · have h2 : id ≠ id2 := Ne.symm h
      simp [mapErase, mapLookup, he, h2, ih]
    · simp [mapErase, mapLookup, he, ih]

theorem mem_mapInsert {p : String × Task} {id : String} {t : Task}
    {l : List (String × Task)} (h : p ∈ mapInsert id t l) : p = (id, t) ∨ p ∈ l := by
  induction l with
  | nil => simpa [mapInsert] using h
  | cons e es ih =>
    by_cases he : e.1 = id
    · simp only [mapInsert, he, if_true, List.mem_cons] at h
      rcases h with h | h
      · exact .inl h
      · exact .inr (List.mem_cons_of_mem e h)
    · simp only [mapInsert, he, if_false, List.mem_cons] at h
      rcases h with h | h
      · exact .inr (h ▸ List.mem_cons_self e es)
      · rcases ih h with h2 | h2
        · exact .inl h2
        · exact .inr (List.mem_cons_of_mem e h2)

theorem mem_mapErase {p : String × Task} {id : String} {l : List (String × Task)}
    (h : p ∈ mapErase id l) : p ∈ l := by
  induction l with
  | nil => simp [mapErase] at h
  | cons e es ih =>
    by_cases he : e.1 = id
    · simp only [mapErase, he, if_true] at h
      exact List.mem_cons_of_mem e (ih h)
    · simp only [mapErase, he, if_false, List.mem_cons] at h
      rcases h with h | h
      · exact h ▸ List.mem_cons_self e es
      · exact List.mem_cons_of_mem e (ih h)

theorem mapLookup_mem {id : String} {t : Task} {l : List (String × Task)}
    (h : mapLookup id l = some t) : (id, t) ∈ l := by
  induction l with
  | nil => simp [mapLookup] at h
  | cons e es ih =>
    by_cases he : e.1 = id
    · simp only [mapLookup, he, if_true, Option.some.injEq] at h
      have : e = (id, t) := by
        cases e
        simp_all
      exact this ▸ List.mem_cons_self e es
    · simp only [mapLookup, he, if_false] at h
      exact List.mem_cons_of_mem e (ih h)

theorem mapInsert_of_notMem {id : String} (t : Task) {l : List (String × Task)}
    (h : id ∉ l.map Prod.fst) : mapInsert id t l = l ++ [(id, t)] := by
  induction l with
  | nil => simp [mapInsert]
  | cons e es ih =>
    simp only [List.map_cons, List.mem_cons] at h
    push_neg at h
    have he : e.1 ≠ id := Ne.symm h.1
    simp [mapInsert, he, ih h.2]

/-! Lemmas about the decimal rendering `Itoa`. -/

theorem digitChar_inj : ∀ a, a < 10 → ∀ b, b < 10 → digitChar a = digitChar b → a = b := by
  decide

theorem map_digitChar_inj : ∀ l1 l2 : List Nat, (∀ d ∈ l1, d < 10) → (∀ d ∈ l2, d < 10) →
    l1.map digitChar = l2.map digitChar → l1 = l2
  | [], [], _, _, _ => rfl
  | [], _ :: _, _, _, h => by simp at h
  | _ :: _, [], _, _, h => by simp at h
  | a :: t1, b :: t2, h1, h2, h => by
    simp only [List.map_cons, List.cons.injEq] at h
    have ha : a = b :=
      digitChar_inj a (h1 a (List.mem_cons_self a t1)) b (h2 b (List.mem_cons_self b t2)) h.1
    have ht : t1 = t2 :=
      map_digitChar_inj t1 t2 (fun d hd => h1 d (List.mem_cons_of_mem a hd))
        (fun d hd => h2 d (List.mem_cons_of_mem b hd)) h.2
    rw [ha, ht]

theorem toDigitsCore_eq (fuel : Nat) : ∀ (n : Nat) (ds : List Char), n < fuel →
    toDigitsCore fuel n ds =
      (if n = 0 then ['0'] else ((Nat.digits 10 n).map digitChar).reverse) ++ ds := by
  induction fuel with
  | zero => intro n ds h; omega
  | succ fuel ih =>
    intro n ds h
    rw [toDigitsCore]
    by_cases h0 : n / 10 = 0
    · have hn10 : n < 10 := by omega
      simp only [h0, if_true]
      by_cases hn : n = 0
      · subst hn; simp [digitChar]
      · rw [if_neg hn, Nat.digits_def' (by norm_num : 1 < 10) (Nat.pos_of_ne_zero hn), h0]
        simp [Nat.mod_eq_of_lt hn10]
    · have hn : n ≠ 0 := by
        intro hx; exact h0 (by simp [hx])
      have hlt : n / 10 < fuel := by
        have : n / 10 < n := Nat.div_lt_self (Nat.pos_of_ne_zero hn) (by norm_num)
        omega
      simp only [h0, if_false]
      rw [ih (n / 10) _ hlt, if_neg h0,
        Nat.digits_def' (by norm_num : 1 < 10) (Nat.pos_of_ne_zero hn)]
      simp [hn]

theorem Itoa_eq (n : Nat) :
    Itoa n = (if n = 0 then ['0'] else ((Nat.digits 10 n).map digitChar).reverse).asString := by
  rw [Itoa, toDigitsCore_eq (n + 1) n [] (Nat.lt_succ_self n), List.append_nil]

theorem Itoa_ne_empty (n : Nat) : Itoa n ≠ "" := by
  rw [Itoa_eq]
  intro h
  have hdata := congrArg String.data h
  simp only [List.asString] at hdata
  by_cases hn : n = 0
  · rw [if_pos hn] at hdata
    simp at hdata
  · rw [if_neg hn] at hdata
    have hdig : Nat.digits 10 n = [] := by
      have hlen := congrArg List.length hdata
      simp at hlen
      exact hlen
    exact absurd hdig (Nat.digits_ne_nil_iff_ne_zero.mpr hn)

theorem Itoa_inj : ∀ {m n : Nat}, 0 < m → 0 < n → Itoa m = Itoa n → m = n := by
  intro m n hm hn h
  rw [Itoa_eq, Itoa_eq, if_neg (by omega), if_neg (by omega)] at h
  have hdata : ((Nat.digits 10 m).map digitChar).reverse =
      ((Nat.digits 10 n).map digitChar).reverse := by
    simpa [List.asString] using congrArg String.data h
  have hmap : (Nat.digits 10 m).map digitChar = (Nat.digits 10 n).map digitChar :=
    List.reverse_injective hdata
  have hdig : Nat.digits 10 m = Nat.digits 10 n :=
    map_digitChar_inj _ _ (fun d hd => Nat.digits_lt_base (by norm_num) hd)
      (fun d hd => Nat.digits_lt_base (by norm_num) hd) hmap
  exact Nat.digits.injective 10 hdig

/-! Characterization lemmas for the repository operations. -/

/-- Full characterization of a successful `Update`: the task found under
the requested id is rewritten field by field according to the mask, and
written back under its own id. -/
theorem Update_found (db : InMemoryTaskDB) (id : String) (u : TaskUpdate)
    (fields : FieldMask) (now : Nat) (t0 : Task)
    (h : mapLookup id db.tasks = some t0) :
    ∃ t2 : Task,
      db.Update id (some u) fields now = (⟨mapInsert t0.id t2 db.tasks⟩, .ok t2) ∧
      t2.id = t0.id ∧
      t2.summary = (if fields.has "summary" then u.summary else t0.summary) ∧
      t2.completedAt =
        (if fields.has "completed_at" then u.completedAt else t0.completedAt) ∧
      t2.updatedAt =
        (if fields.has "summary" || fields.has "completed_at" then now
         else t0.updatedAt) ∧
      t2.createdAt = t0.createdAt ∧
      t2.deletedAt = t0.deletedAt := by
  rw [InMemoryTaskDB.Update]
  cases hs : fields.has "summary" <;> cases hc : fields.has "completed_at" <;>
    simp [h, hs, hc] <;> exact ⟨_, ⟨rfl, rfl⟩, rfl, rfl, rfl, rfl, rfl, rfl⟩

/-- `Update` on a nil update descriptor: a plain error, store unchanged,
before the map is consulted. -/
theorem Update_nil (db : InMemoryTaskDB) (id : String) (fields : FieldMask)
    (now : Nat) :
    db.Update id none fields now = (db, .error (.plain "update cannot be nil")) := by
  rfl

/-- `Update` on an absent id: `TaskNotFoundError`, store unchanged. -/
theorem Update_absent (db : InMemoryTaskDB) (id : String) (u : TaskUpdate)
    (fields : FieldMask) (now : Nat) (h : mapLookup id db.tasks = none) :
    db.Update id (some u) fields now = (db, .error (.taskNotFound id)) := by
  rw [InMemoryTaskDB.Update]
  simp [h]

/-- `Create` on a non-nil input: the new task, its id, and the new
store state. -/
theorem Create_some (db : InMemoryTaskDB) (tc : TaskCreate) (now : Nat) :
    ∃ t : Task,
      db.Create (some tc) now = (⟨mapInsert t.id t db.tasks⟩, .ok t) ∧
      t.id = Itoa (db.tasks.length + 1) ∧ t.summary = tc.summary ∧
      t.createdAt = now ∧ t.updatedAt = 0 ∧ t.completedAt = 0 ∧ t.deletedAt = 0 := by
  rw [InMemoryTaskDB.Create]
  exact ⟨_, rfl, rfl, rfl, rfl, rfl, rfl, rfl⟩

/-- `Delete` on an absent id: `TaskNotFoundError`, store unchanged. -/
theorem Delete_absent (db : InMemoryTaskDB) (id : String)
    (h : mapLookup id db.tasks = none) :
    db.Delete id = (db, .error (.taskNotFound id)) := by
  rw [InMemoryTaskDB.Delete]
  simp [h]

/-- `Delete` on a present id: success, entry erased. -/
theorem Delete_present (db : InMemoryTaskDB) (id : String) (t : Task)
    (h : mapLookup id db.tasks = some t) :
    db.Delete id = (⟨mapErase id db.tasks⟩, .ok ()) := by
  rw [InMemoryTaskDB.Delete]
  simp [h]

/-! Lemmas about operation traces. -/

/-- Every id handed out by a successful `Create` during a trace is
non-empty. -/
theorem runOps_ids_ne_empty : ∀ (trace : List (Op × Nat)) (db : InMemoryTaskDB),
    ∀ id ∈ (runOps db trace).2, id ≠ ""
  | [], db => by simp [runOps]
  | (.create none, now) :: rest, db => by
    simp only [runOps, InMemoryTaskDB.Create]
    exact runOps_ids_ne_empty rest db
  | (.create (some tc), now) :: rest, db => by
    simp only [runOps, InMemoryTaskDB.Create]
    intro id hid
    rcases List.mem_cons.mp hid with h | h
    · rw [h]
      exact Itoa_ne_empty _
    · exact runOps_ids_ne_empty rest _ id h
  | (.update id0 u fields, now) :: rest, db => by
    simp only [runOps]
    exact runOps_ids_ne_empty rest _
  | (.delete id0, _) :: rest, db => by
    simp only [runOps]
    exact runOps_ids_ne_empty rest _

/-- The decimal ids 1 .. k, in order: the keys of a store that has seen
k creations and nothing else. -/
def oneTo (k : Nat) : List String := (List.range k).map (fun i => Itoa (i + 1))

theorem oneTo_length (k : Nat) : (oneTo k).length = k := by
  simp [oneTo]

theorem Itoa_succ_notMem_oneTo (k : Nat) : Itoa (k + 1) ∉ oneTo k := by
  intro h
  simp only [oneTo, List.mem_map, List.mem_range] at h
  obtain ⟨i, hik, hi⟩ := h
  have := Itoa_inj (Nat.succ_pos i) (Nat.succ_pos k) hi
  omega

/-- On a creates-only trace starting from a store whose keys are
1 .. k, the store's keys stay an initial decimal segment and the
returned ids are k+1, k+2, ... in order. -/
theorem runOps_createsOnly : ∀ (trace : List (Op × Nat)) (db : InMemoryTaskDB) (k : Nat),
    createsOnly trace = true → db.tasks.map Prod.fst = oneTo k →
    (runOps db trace).1.tasks.map Prod.fst = oneTo (k + trace.length) ∧
    (runOps db trace).2 = (List.range trace.length).map (fun i => Itoa (k + i + 1))
  | [], db, k => by
    intro _ hkeys
    simpa [runOps] using hkeys
  | (.create (some tc), now) :: rest, db, k => by
    intro hco hkeys
    have hlen : db.tasks.length = k := by
      have := congrArg List.length hkeys
      simpa [oneTo_length] using this
    have hfresh : Itoa (k + 1) ∉ db.tasks.map Prod.fst := by
      rw [hkeys]
      exact Itoa_succ_notMem_oneTo k
    have hco2 : createsOnly rest = true := hco
    simp only [runOps, InMemoryTaskDB.Create, hlen]
    rw [mapInsert_of_notMem _ hfresh]
    have hkeys2 : (db.tasks ++ [(Itoa (k + 1),
        (⟨Itoa (k + 1), tc.summary, now, 0, 0, 0⟩ : Task))]).map Prod.fst = oneTo (k + 1) := by
      rw [List.map_append, hkeys, oneTo, oneTo, List.range_succ, List.map_append]
      simp
    have ih := runOps_createsOnly rest ⟨db.tasks ++ [(Itoa (k + 1),
        (⟨Itoa (k + 1), tc.summary, now, 0, 0, 0⟩ : Task))]⟩ (k + 1) hco2 hkeys2
    constructor
    · have h2 := ih.1
      have h3 : k + 1 + rest.length = k + (rest.length + 1) := by omega
      rw [h3] at h2
      exact h2
    · rw [List.length_cons, List.range_succ_eq_map, List.map_cons, List.map_map]
      congr 1
      rw [ih.2]
      congr 1
      funext i
      simp only [Function.comp_apply]
      congr 1
      omega
  | (.create none, _) :: rest, db, k => by
    intro hco _
    simp [createsOnly] at hco
  | (.update id0 u fields, _) :: rest, db, k => by
    intro hco _
    simp [createsOnly] at hco
  | (.delete id0, _) :: rest, db, k => by
    intro hco _
    simp [createsOnly] at hco

/-- Timestamp discipline of a store: every task was created no later
than `bound`, and a set `updatedAt` is no earlier than `createdAt`. -/
def goodStamps (db : InMemoryTaskDB) (bound : Nat) : Prop :=
  ∀ p ∈ db.tasks, p.2.createdAt ≤ bound ∧
    (p.2.updatedAt ≠ 0 → p.2.createdAt ≤ p.2.updatedAt)

theorem goodStamps_mono {db : InMemoryTaskDB} {b b2 : Nat} (h : goodStamps db b)
    (hb : b ≤ b2) : goodStamps db b2 := by
  intro p hp
  exact ⟨Nat.le_trans (h p hp).1 hb, (h p hp).2⟩

theorem goodStamps_create {db : InMemoryTaskDB} {b now : Nat} (tc : TaskCreate)
    (h : goodStamps db b) (hb : b ≤ now) :
    goodStamps (db.Create (some tc) now).1 now := by
  intro p hp
  simp only [InMemoryTaskDB.Create] at hp
  rcases mem_mapInsert hp with h2 | h2
  · rw [h2]
    exact ⟨Nat.le_refl now, fun hx => absurd rfl hx⟩
  · exact goodStamps_mono h hb p h2

theorem goodStamps_update {db : InMemoryTaskDB} {b now : Nat} (id : String)
    (u : TaskUpdate) (fields : FieldMask)
    (h : goodStamps db b) (hb : b ≤ now) :
    goodStamps (db.Update id (some u) fields now).1 now := by
  cases hl : mapLookup id db.tasks with
  | none =>
    rw [Update_absent db id u fields now hl]
    exact goodStamps_mono h hb
  | some t0 =>
    obtain ⟨t2, heq, hid, hsum, hcomp, hupd, hcre, hdel⟩ :=
      Update_found db id u fields now t0 hl
    rw [heq]
    intro p hp
    rcases mem_mapInsert hp with h2 | h2
    · have ht0 := h (id, t0) (mapLookup_mem hl)
      rw [h2]
      dsimp only
      rw [hcre, hupd]
      by_cases hm : (fields.has "summary" || fields.has "completed_at") = true
      · rw [if_pos hm]
        exact ⟨Nat.le_trans ht0.1 hb, fun _ => Nat.le_trans ht0.1 hb⟩
      · rw [if_neg hm]
        exact ⟨Nat.le_trans ht0.1 hb, ht0.2⟩
    · exact goodStamps_mono h hb p h2

theorem goodStamps_delete {db : InMemoryTaskDB} {b now : Nat} (id : String)
    (h : goodStamps db b) (hb : b ≤ now) :
    goodStamps (db.Delete id).1 now := by
  cases hl : mapLookup id db.tasks with
  | none =>
    rw [Delete_absent db id hl]
    exact goodStamps_mono h hb
  | some t0 =>
    rw [Delete_present db id t0 hl]
    intro p hp
    exact goodStamps_mono h hb p (mem_mapErase hp)

/-- Any trace with monotone timestamps preserves the timestamp
discipline. -/
theorem runOps_goodStamps : ∀ (trace : List (Op × Nat)) (b : Nat) (db : InMemoryTaskDB),
    goodStamps db b → timesMono b trace →
    ∃ b2, goodStamps (runOps db trace).1 b2
  | [], b, db => fun h _ => ⟨b, by simpa [runOps] using h⟩
  | (.create none, now) :: rest, b, db => fun h hm => by
    simp only [runOps, InMemoryTaskDB.Create]
    exact runOps_goodStamps rest now db (goodStamps_mono h hm.1) hm.2
  | (.create (some tc), now) :: rest, b, db => fun h hm => by
    simp only [runOps]
    have h2 : goodStamps (db.Create (some tc) now).1 now := goodStamps_create tc h hm.1
    simp only [InMemoryTaskDB.Create] at h2 ⊢
    exact runOps_goodStamps rest now _ h2 hm.2
  | (.update id0 u fields, now) :: rest, b, db => fun h hm => by
    cases u with
    | none =>
      simp only [runOps, InMemoryTaskDB.Update]
      exact runOps_goodStamps rest now db (goodStamps_mono h hm.1) hm.2
    | some u0 =>
      simp only [runOps]
      exact runOps_goodStamps rest now _ (goodStamps_update id0 u0 fields h hm.1) hm.2
  | (.delete id0, now) :: rest, b, db => fun h hm => by
    simp only [runOps]
    exact runOps_goodStamps rest now _ (goodStamps_delete id0 h hm.1) hm.2

/-! Sample data used by witness theorems. -/

/-- A concrete task used in witnesses. -/
def sampleTask : Task := ⟨"1", "a", 1, 0, 0, 0⟩

/-- A concrete one-task store used in witnesses. -/
def sampleDB : InMemoryTaskDB := ⟨[("1", sampleTask)]⟩

/-! Claim theorems. -/

/-- C1 (counterexample): in the trace create, create, delete 2,
create, the third `Create` returns id 2 again — the id of the deleted
task, already returned by an earlier `Create` — so the returned ids are
not pairwise distinct. -/
theorem C1_counterexample :
    (runOps NewInMemoryTaskDB
      [(Op.create (some ⟨"a"⟩), 1), (Op.create (some ⟨"b"⟩), 2),
       (Op.delete "2", 3), (Op.create (some ⟨"c"⟩), 4)]).2 = ["1", "2", "2"] ∧
    ¬ (["1", "2", "2"] : List String).Nodup := by decide

/-- C1 (amended): every id returned by `Create` in any create/delete
sequence is non-empty, and in any sequence of `Create` calls with no
intervening deletions the returned ids are pairwise distinct; after a
deletion an id may be reused, because the next id is derived from the
current map size. -/
theorem C1_create_ids (trace : List (Op × Nat)) :
    (∀ id ∈ (runOps NewInMemoryTaskDB trace).2, id ≠ "") ∧
    (createsOnly trace = true → (runOps NewInMemoryTaskDB trace).2.Nodup) := by
  constructor
  · exact runOps_ids_ne_empty trace NewInMemoryTaskDB
  · intro h
    have hstruct := runOps_createsOnly trace NewInMemoryTaskDB 0 h rfl
    rw [hstruct.2]
    refine List.Nodup.map ?_ (List.nodup_range _)
    intro i j hinj
    have := Itoa_inj (by omega : 0 < 0 + i + 1) (by omega : 0 < 0 + j + 1) hinj
    omega

/-- Witness for C1 at a concrete creates-only trace of length two: the
ids 1 and 2 come back distinct, and id 1 is non-empty. -/
theorem C1_witness :
    ("1" : String) ≠ "" ∧
    (runOps NewInMemoryTaskDB
      [(Op.create (some ⟨"a"⟩), 1), (Op.create (some ⟨"b"⟩), 2)]).2.Nodup :=
  ⟨(C1_create_ids [(Op.create (some ⟨"a"⟩), 1), (Op.create (some ⟨"b"⟩), 2)]).1 "1"
    (by decide),
   (C1_create_ids [(Op.create (some ⟨"a"⟩), 1), (Op.create (some ⟨"b"⟩), 2)]).2
    (by decide)⟩

/-- C2: when the store contains a task under `id`, `Update` succeeds and
changes exactly the recognized fields named in the mask: `summary` is
replaced only if the mask names `summary`, the completion timestamp only
if it names `completed_at`; all other task fields and all other store
entries are unchanged, and unrecognized mask names neither change
anything nor cause an error. -/
theorem C2_update_field_mask_precision (db : InMemoryTaskDB) (id : String)
    (u : TaskUpdate) (fields : FieldMask) (now : Nat) (t0 : Task)
    (h : mapLookup id db.tasks = some t0) :
    ∃ t2 : Task,
      (db.Update id (some u) fields now).2 = .ok t2 ∧
      t2.summary = (if fields.has "summary" then u.summary else t0.summary) ∧
      t2.completedAt =
        (if fields.has "completed_at" then u.completedAt else t0.completedAt) ∧
      t2.createdAt = t0.createdAt ∧ t2.id = t0.id ∧ t2.deletedAt = t0.deletedAt ∧
      mapLookup t0.id (db.Update id (some u) fields now).1.tasks = some t2 ∧
      ∀ id2, id2 ≠ t0.id →
        mapLookup id2 (db.Update id (some u) fields now).1.tasks =
          mapLookup id2 db.tasks := by
  obtain ⟨t2, heq, hid, hsum, hcomp, hupd, hcre, hdel⟩ :=
    Update_found db id u fields now t0 h
  refine ⟨t2, by rw [heq], hsum, hcomp, hcre, hid, hdel, ?_, ?_⟩
  · rw [heq]
    exact mapLookup_mapInsert_self _ _ _
  · intro id2 hne
    rw [heq]
    exact mapLookup_mapInsert_ne _ _ hne

/-- Witness for C2 at a concrete store: updating task 1 with a
summary-only mask replaces the summary and leaves `completedAt`
untouched. -/
theorem C2_witness :
    ∃ t2 : Task,
      (sampleDB.Update "1" (some ⟨"x", 9⟩) ["summary"] 5).2 = .ok t2 ∧
      t2.summary = (if FieldMask.has ["summary"] "summary" then "x" else sampleTask.summary) ∧
      t2.completedAt =
        (if FieldMask.has ["summary"] "completed_at" then 9 else sampleTask.completedAt) ∧
      t2.createdAt = sampleTask.createdAt ∧ t2.id = sampleTask.id ∧
      t2.deletedAt = sampleTask.deletedAt ∧
      mapLookup sampleTask.id (sampleDB.Update "1" (some ⟨"x", 9⟩) ["summary"] 5).1.tasks =
        some t2 ∧
      ∀ id2, id2 ≠ sampleTask.id →
        mapLookup id2 (sampleDB.Update "1" (some ⟨"x", 9⟩) ["summary"] 5).1.tasks =
          mapLookup id2 sampleDB.tasks :=
  C2_update_field_mask_precision sampleDB "1" ⟨"x", 9⟩ ["summary"] 5 sampleTask (by decide)

/-- C3 (code bug): the PATCH handler translates a repository
`TaskNotFoundError` into a 500 internal-server-error status, not the 404
the specification requires; a malformed body yields 400 and a
successful update yields 200 with the updated task. -/
theorem C3_patch_unknown_id_gives_500 :
    (doUpdateTask NewInMemoryTaskDB "1" (some ⟨"x", 0⟩) ["summary"] 5).1 = 500 ∧
    (doUpdateTask NewInMemoryTaskDB "1" none ["summary"] 5).1 = 400 ∧
    (doUpdateTask sampleDB "1" (some ⟨"x", 0⟩) ["summary"] 5).1 = 200 ∧
    (doUpdateTask sampleDB "1" (some ⟨"x", 0⟩) ["summary"] 5).2.1 =
      some ⟨"1", "x", 1, 5, 0, 0⟩ := by
  decide

/-- C4: a successful `Update` preserves `createdAt` of the task it
rewrites (and `Delete` leaves every other entry untouched), a mask
naming `summary` or `completed_at` stamps `updatedAt` with the
mutation's time, and along any trace with monotone clock readings every
stored task with a set `updatedAt` satisfies
`createdAt ≤ updatedAt`. -/
theorem C4_created_updated_discipline (db : InMemoryTaskDB) (id : String)
    (u : TaskUpdate) (fields : FieldMask) (now b : Nat) (t0 : Task)
    (trace : List (Op × Nat)) :
    (mapLookup id db.tasks = some t0 →
      ∃ t2 : Task, (db.Update id (some u) fields now).2 = .ok t2 ∧
        t2.createdAt = t0.createdAt ∧
        mapLookup t0.id (db.Update id (some u) fields now).1.tasks = some t2 ∧
        (∀ id2, id2 ≠ t0.id →
          mapLookup id2 (db.Update id (some u) fields now).1.tasks =
            mapLookup id2 db.tasks) ∧
        ((fields.has "summary" = true ∨ fields.has "completed_at" = true) →
          t2.updatedAt = now)) ∧
    (∀ id2, id2 ≠ id →
      mapLookup id2 (db.Delete id).1.tasks = mapLookup id2 db.tasks) ∧
    (timesMono b trace →
      ∀ p ∈ (runOps NewInMemoryTaskDB trace).1.tasks,
        p.2.updatedAt ≠ 0 → p.2.createdAt ≤ p.2.updatedAt) := by
  refine ⟨?_, ?_, ?_⟩
  · intro h
    obtain ⟨t2, heq, hid, hsum, hcomp, hupd, hcre, hdel⟩ :=
      Update_found db id u fields now t0 h
    refine ⟨t2, by rw [heq], hcre,
      by rw [heq]; exact mapLookup_mapInsert_self _ _ _,
      fun id2 hne => by rw [heq]; exact mapLookup_mapInsert_ne _ _ hne, ?_⟩
    intro hm
    rw [hupd, if_pos]
    rcases hm with hm | hm <;> simp [hm]
  · intro id2 hne
    cases hl : mapLookup id db.tasks with
    | none => rw [Delete_absent db id hl]
    | some t => rw [Delete_present db id t hl]; exact mapLookup_mapErase_ne db.tasks hne
  · intro hm p hp hup
    have hg : goodStamps NewInMemoryTaskDB b := by
      intro q hq
      simp [NewInMemoryTaskDB] at hq
    obtain ⟨b2, hb2⟩ := runOps_goodStamps trace b NewInMemoryTaskDB hg hm
    exact (hb2 p hp).2 hup

/-- Witness for C4: after creating a task at time 1 and updating its
summary at time 5, the stored task satisfies
`createdAt ≤ updatedAt`. -/
theorem C4_witness :
    (⟨"1", "x", 1, 5, 0, 0⟩ : Task).createdAt ≤
      (⟨"1", "x", 1, 5, 0, 0⟩ : Task).updatedAt :=
  (C4_created_updated_discipline sampleDB "1" ⟨"x", 9⟩ ["summary"] 5 0 sampleTask
      [(Op.create (some ⟨"a"⟩), 1), (Op.update "1" (some ⟨"x", 9⟩) ["summary"], 5)]).2.2
    (by decide)
    ("1", ⟨"1", "x", 1, 5, 0, 0⟩)
    (by decide)
    (by decide)

/-- C5: `All` never fails and returns a list that contains every entry
of the store exactly once (a permutation of the map values), sorted by
ascending creation time. -/
theorem C5_all_sorted_permutation (db : InMemoryTaskDB) :
    ∃ l : List Task, db.All = .ok l ∧
      l.Perm (db.tasks.map Prod.snd) ∧
      List.Pairwise (fun a b => a.createdAt ≤ b.createdAt) l := by
  refine ⟨_, rfl, List.mergeSort_perm _ _, ?_⟩
  have hp : (List.mergeSort (db.tasks.map Prod.snd)
      (fun a b => decide (a.createdAt ≤ b.createdAt))).Pairwise
      (fun a b => decide (a.createdAt ≤ b.createdAt)) :=
    List.sorted_mergeSort
      (fun a b c hab hbc => by
        simp only [decide_eq_true_eq] at hab hbc ⊢
        omega)
      (fun a b => by simpa using Nat.le_total a.createdAt b.createdAt)
      (db.tasks.map Prod.snd)
  exact hp.imp (fun hab => by simpa using hab)

/-- C6: `Delete` returns `TaskNotFoundError` exactly when the id is
absent and leaves the store unchanged in that case; when the id is
present it succeeds, removes that entry and no other; a second delete
of the same id returns `TaskNotFoundError`. -/
theorem C6_delete_semantics (db : InMemoryTaskDB) (id : String) :
    ((db.Delete id).2 = .error (.taskNotFound id) ↔ mapLookup id db.tasks = none) ∧
    (mapLookup id db.tasks = none → (db.Delete id).1 = db) ∧
    (∀ t, mapLookup id db.tasks = some t →
      (db.Delete id).2 = .ok () ∧
      mapLookup id (db.Delete id).1.tasks = none ∧
      ∀ id2, id2 ≠ id →
        mapLookup id2 (db.Delete id).1.tasks = mapLookup id2 db.tasks) ∧
    ((db.Delete id).2 = .ok () →
      ((db.Delete id).1.Delete id).2 = .error (.taskNotFound id)) := by
  cases hl : mapLookup id db.tasks with
  | none =>
    rw [Delete_absent db id hl]
    refine ⟨by simp, fun _ => rfl, ?_, ?_⟩
    · intro t ht
      cases ht
    · intro hok
      simp at hok
  | some t0 =>
    rw [Delete_present db id t0 hl]
    refine ⟨by simp, ?_, ?_, ?_⟩
    · intro hn
      cases hn
    · intro t ht
      exact ⟨rfl, mapLookup_mapErase_self id db.tasks,
        fun id2 hne => mapLookup_mapErase_ne db.tasks hne⟩
    · intro h0
      exact congrArg Prod.snd
        (Delete_absent ⟨mapErase id db.tasks⟩ id (mapLookup_mapErase_self id db.tasks))

/-- Witness for C6 at a concrete store: deleting task 1 succeeds and
removes it; deleting it again reports `TaskNotFoundError`. -/
theorem C6_witness :
    (sampleDB.Delete "1").2 = .ok () ∧
    mapLookup "1" (sampleDB.Delete "1").1.tasks = none ∧
    ((sampleDB.Delete "1").1.Delete "1").2 = .error (.taskNotFound "1") :=
  have h := C6_delete_semantics sampleDB "1"
  have hp := h.2.2.1 sampleTask (by decide)
  ⟨hp.1, hp.2.1, h.2.2.2 hp.1⟩

/-- C7 (counterexample): when the gRPC listener is bound and the HTTP
bind fails, `Serve` returns the bind error but the gRPC listener is
left open, not closed as claimed. -/
theorem C7_counterexample :
    Serve (.ok 7) (.error "address in use") =
      .bindError "cannot start HTTP server: address in use" [7] ∧
    [7] ≠ ([] : List Nat) := ⟨rfl, by decide⟩

/-- C7 (amended): a failure to bind either listener makes `Serve`
return a wrapped error without serving; a gRPC bind failure leaves
nothing bound, while an HTTP bind failure leaves exactly the
already-bound gRPC listener open (it is not closed by `Serve`). -/
theorem C7_bind_failure_aborts (g : Nat) (e : String)
    (httpBind : Except String Nat) :
    Serve (.error e) httpBind = .bindError ("cannot start gRPC server: " ++ e) [] ∧
    Serve (.ok g) (.error e) = .bindError ("cannot start HTTP server: " ++ e) [g] :=
  ⟨rfl, rfl⟩

/-- C8: when the try-lock reports the lock as held elsewhere, the run
command returns `AlreadyRunning` at once, with no server started and no
unlock attempted; when the lock is acquired, the deferred unlock runs
at shutdown and a failed unlock is logged without changing the
command's result. -/
theorem C8_lock_guard (mkdirSock rmSock serveResult : Option String)
    (u1 u2 : Bool) (tryLock : Except String Bool) (mkdirLock : Option String) :
    runServer none (.ok false) mkdirSock rmSock serveResult u1 =
      (.alreadyRunning, ⟨false, false, []⟩) ∧
    runServer none (.ok true) none none serveResult u1 =
      (.serveDone serveResult, ⟨true, true, lockLogs u1⟩) ∧
    (runServer mkdirLock tryLock mkdirSock rmSock serveResult u1).1 =
      (runServer mkdirLock tryLock mkdirSock rmSock serveResult u2).1 := by
  refine ⟨rfl, rfl, ?_⟩
  cases mkdirLock with
  | some e => rfl
  | none =>
    cases tryLock with
    | error e => rfl
    | ok b =>
      cases b with
      | false => rfl
      | true =>
        cases mkdirSock with
        | some e => rfl
        | none =>
          cases rmSock with
          | some e => rfl
          | none => rfl

/-- C9: a reported process id within the unsigned 32-bit range is
carried unchanged in the status response of both RPC status handlers; a
negative or too-large process id produces an internal error and no
response. -/
theorem C9_status_pid_range (pid : Int) (url : String) :
    (0 ≤ pid → pid ≤ MaxUint32 →
      GetStatus (some (.ok (pid, url))) = .ok ⟨pid.toNat, url⟩ ∧
      GRPCStatus (some (.ok (pid, url))) = .ok ⟨pid.toNat, url⟩ ∧
      (pid.toNat : Int) = pid) ∧
    (pid < 0 ∨ MaxUint32 < pid →
      GetStatus (some (.ok (pid, url))) = .error "unexpected PID" ∧
      GRPCStatus (some (.ok (pid, url))) = .error "invalid server PID") := by
  constructor
  · intro h0 hM
    have hcond : ¬(pid < 0 ∨ pid > MaxUint32) := by omega
    have hmod : pid % 4294967296 = pid :=
      Int.emod_eq_of_lt h0 (by rw [MaxUint32] at hM; omega)
    constructor
    · rw [GetStatus]
      simp only [hcond, if_false, toUint32, hmod]
    constructor
    · rw [GRPCStatus]
      simp only [hcond, if_false, toUint32, hmod]
    · exact Int.toNat_of_nonneg h0
  · intro h
    have hcond : pid < 0 ∨ pid > MaxUint32 := h
    constructor
    · rw [GetStatus]
      simp only [hcond, if_true]
    · rw [GRPCStatus]
      simp only [hcond, if_true]

/-- Witness for C9: pid 1234 is in range and passes through unchanged;
pid -1 is rejected with an internal error. -/
theorem C9_witness :
    GetStatus (some (.ok (1234, "http://127.0.0.1:8080/api"))) =
      .ok ⟨1234, "http://127.0.0.1:8080/api"⟩ ∧
    GetStatus (some (.ok (-1, "u"))) = .error "unexpected PID" :=
  have h1 := (C9_status_pid_range 1234 "http://127.0.0.1:8080/api").1
    (by decide) (by decide)
  have h2 := (C9_status_pid_range (-1) "u").2 (Or.inl (by decide))
  ⟨h1.1, h2.1⟩

/-- C10: a nil create input and a nil update descriptor fail with a
plain error that is not a `TaskNotFoundError`, leave the store exactly
as it was, and do so for every store and id — in particular a nil
update on an absent id does not report `TaskNotFoundError`. -/
theorem C10_nil_inputs (db : InMemoryTaskDB) (id : String) (fields : FieldMask)
    (now : Nat) :
    db.Create none now = (db, .error (.plain "task cannot be nil")) ∧
    db.Update id none fields now = (db, .error (.plain "update cannot be nil")) ∧
    IsTaskNotFoundError (.plain "task cannot be nil") = false ∧
    IsTaskNotFoundError (.plain "update cannot be nil") = false :=
  ⟨rfl, rfl, rfl, rfl⟩

end TodoDaemon
